import Mathlib

/-!
Verification development for the `CSARCH2` cache simulator
(`src/CSARCH2_Simulation.py`).

The core of the program is the class `CacheSimulator`: an 8-way
set-associative cache with 32 blocks (hence 4 sets), MRU replacement,
a logical access counter, hit/miss counters and a trace log.  The file
below is a shallow embedding of that class and of the test-sequence
generators, followed by theorems settling the specification claims.

Trace strings are modelled by the structured type `LogEntry`, carrying
exactly the data the Python format strings interpolate.
-/

/-- One cache entry: the Python dict with keys for the block number and
the access timestamp. -/
structure Line where
  block : Int
  timestamp : Int
deriving DecidableEq, Repr

/-- Structured counterpart of the trace strings appended to the log:
one constructor per format string in the source, carrying the values
the format string interpolates. -/
inductive LogEntry where
  | invalid (a : Int)
  | hit (a : Int) (si : Nat)
  | miss (a : Int) (si : Nat)
  | loaded (a : Int) (si : Nat)
  | replaced (old new : Int) (si : Nat)
deriving DecidableEq, Repr

/-- Fixed number of cache blocks (source line 11). -/
def cache_blocks : Nat := 32

/-- Fixed associativity: 8-way (source line 12). -/
def associativity : Nat := 8

/-- Number of sets, computed as in the source: 32 / 8 = 4. -/
def num_sets : Nat := cache_blocks / associativity

/-- The mutable state of the Python class `CacheSimulator`. -/
structure CacheSimulator where
  total_memory_blocks : Int
  cache : List (List Line)
  time_counter : Int
  hits : Nat
  misses : Nat
  log : List LogEntry
deriving DecidableEq, Repr

/-- The constructor of `CacheSimulator` (source lines 9-19): it performs
no validation of `total_memory_blocks` and always produces the fresh
state with 4 empty sets and all counters at 0. -/
def CacheSimulator.init (total_memory_blocks : Int) : CacheSimulator where
  total_memory_blocks := total_memory_blocks
  cache := List.replicate num_sets []
  time_counter := 0
  hits := 0
  misses := 0
  log := []

/-- The hit-scan loop of `access` (source lines 33-39): walk the set in
slot order, update the timestamp of the first entry whose block matches,
leave everything after it untouched (the Python loop breaks there). -/
def touchFirst : List Line → Int → Int → List Line
  | [], _, _ => []
  | e :: rest, a, t =>
    if e.block = a then { e with timestamp := t } :: rest
    else e :: touchFirst rest a t

/-- The MRU scan loop of `access` (source lines 50-55): running maximum
of the timestamps, strict comparison, so the recorded index is the first
slot attaining the maximum. -/
def mruFold : List Line → Nat → Int → Option Nat → Int × Option Nat
  | [], _, mru_time, mru_index => (mru_time, mru_index)
  | e :: rest, i, mru_time, mru_index =>
    if mru_time < e.timestamp then mruFold rest (i + 1) e.timestamp (some i)
    else mruFold rest (i + 1) mru_time mru_index

/-- Index of the eviction victim: the scan starts with time -1 and no
index, exactly as the Python loop.  (With an empty set, or timestamps
all below -1, the Python code would have index None and crash at the
subscript; that situation is unreachable, and the uses below take the
index out of the option with default 0.) -/
def mruIndex (cset : List Line) : Option Nat := (mruFold cset 0 (-1) none).2

/-- The set an address maps to: `self.cache[block_address % self.num_sets]`.
Python's `%` with positive modulus returns a value in `[0, num_sets)`,
which is what `Int.emod` computes. -/
def cacheSetOf (s : CacheSimulator) (a : Int) : List Line :=
  s.cache.getD (a % (num_sets : Int)).toNat []

/-- Body of `access` after the validation check (source lines 28-58),
with the time counter already incremented: hit scan, then on a miss
either append (set not full) or MRU-replace (set full). -/
def CacheSimulator.validAccess (s : CacheSimulator) (a : Int) : CacheSimulator :=
  if (cacheSetOf s a).any (fun e => e.block = a) then
    { s with cache := s.cache.set (a % (num_sets : Int)).toNat
                        (touchFirst (cacheSetOf s a) a s.time_counter),
             hits := s.hits + 1,
             log := s.log ++ [LogEntry.hit a (a % (num_sets : Int)).toNat] }
  else if (cacheSetOf s a).length < associativity then
    { s with cache := s.cache.set (a % (num_sets : Int)).toNat
                        (cacheSetOf s a ++ [⟨a, s.time_counter⟩]),
             misses := s.misses + 1,
             log := s.log ++ [LogEntry.miss a (a % (num_sets : Int)).toNat,
                              LogEntry.loaded a (a % (num_sets : Int)).toNat] }
  else
    { s with cache := s.cache.set (a % (num_sets : Int)).toNat
                        ((cacheSetOf s a).set ((mruIndex (cacheSetOf s a)).getD 0)
                          ⟨a, s.time_counter⟩),
             misses := s.misses + 1,
             log := s.log ++ [LogEntry.miss a (a % (num_sets : Int)).toNat,
                              LogEntry.replaced
                                (((cacheSetOf s a).getD ((mruIndex (cacheSetOf s a)).getD 0)
                                  ⟨0, 0⟩).block) a (a % (num_sets : Int)).toNat] }

/-- The method `access` (source lines 21-58).  The counter is bumped
first; then the one validation check the source performs: the address is
rejected exactly when `block_address >= self.total_memory_blocks`.
There is no lower-bound check in the source. -/
def CacheSimulator.access (s : CacheSimulator) (a : Int) : CacheSimulator :=
  if s.total_memory_blocks ≤ a then
    { s with time_counter := s.time_counter + 1,
             log := s.log ++ [LogEntry.invalid a] }
  else
    CacheSimulator.validAccess { s with time_counter := s.time_counter + 1 } a

/-- The method `run_sequence` (source lines 60-62): access each element
in order. -/
def CacheSimulator.run_sequence (s : CacheSimulator) (seq : List Int) : CacheSimulator :=
  seq.foldl CacheSimulator.access s

/-- A run: build a fresh engine and replay a sequence through it.  The
states of the form `runSeq tmb seq` are exactly the reachable states. -/
def runSeq (tmb : Int) (seq : List Int) : CacheSimulator :=
  (CacheSimulator.init tmb).run_sequence seq

/-- The record returned by `get_statistics` (source lines 64-81); the
rates and the average are exact rationals. -/
structure Stats where
  totalAccesses : Nat
  hits : Nat
  misses : Nat
  hit_rate : ℚ
  miss_rate : ℚ
  total_time : Nat
  avg_time : ℚ
deriving DecidableEq, Repr

/-- The method `get_statistics` (source lines 64-81): guarded divisions
(0 when the total is 0) and the fixed cost model of 1 unit per hit and
101 units per miss. -/
def CacheSimulator.get_statistics (s : CacheSimulator) : Stats :=
  let total := s.hits + s.misses
  { totalAccesses := total
    hits := s.hits
    misses := s.misses
    hit_rate := if 0 < total then (s.hits : ℚ) / (total : ℚ) else 0
    miss_rate := if 0 < total then (s.misses : ℚ) / (total : ℚ) else 0
    total_time := s.hits * 1 + s.misses * 101
    avg_time := if 0 < total then ((s.hits * 1 + s.misses * 101 : Nat) : ℚ) / (total : ℚ) else 0 }

/-- Python's `list(range(a, b))`: the integers from `a` up to but not
including `b`, empty when `b ≤ a`. -/
def pyRange (a b : Int) : List Int :=
  (List.range (b - a).toNat).map (fun i : Nat => a + (i : Int))

/-- The generator `generate_sequential_sequence` (source lines 94-100):
`list(range(0, 2*n))` repeated 4 times (Python list repetition). -/
def generate_sequential_sequence (n : Int) : List Int :=
  let seq := pyRange 0 (2 * n)
  (List.replicate 4 seq).flatten

/-- The generator `generate_midrepeat_sequence` (source lines 109-121):
`range(0, n)`, then `range(1, n)`, then `range(n, 2*n)`, the
concatenation repeated 4 times. -/
def generate_midrepeat_sequence (n : Int) : List Int :=
  let first_part := pyRange 0 n
  let mid_repeat := pyRange 1 n
  let last_part := pyRange n (2 * n)
  let seq := first_part ++ mid_repeat ++ last_part
  (List.replicate 4 seq).flatten

/-- Stated from the spec's words: the ascending run of addresses
`0 .. 2n-1`, written out as four consecutive copies. -/
def specSequential (n : Int) : List Int :=
  pyRange 0 (2 * n) ++ pyRange 0 (2 * n) ++ pyRange 0 (2 * n) ++ pyRange 0 (2 * n)

/-- Stated from the spec's words: the concatenation of `0..n-1`, then
`1..n-1`, then `n..2n-1`, four consecutive copies of the whole. -/
def specMidRepeat (n : Int) : List Int :=
  let block := pyRange 0 n ++ pyRange 1 n ++ pyRange n (2 * n)
  block ++ block ++ block ++ block

/-- Well-formedness of an engine state: 4 sets, non-negative clock,
every set within capacity with pairwise distinct resident blocks,
globally pairwise distinct timestamps, and every timestamp between 1
and the current clock.  Proved invariant under `access` below. -/
def WF (s : CacheSimulator) : Prop :=
  s.cache.length = num_sets ∧
  0 ≤ s.time_counter ∧
  (∀ cset ∈ s.cache, cset.length ≤ associativity ∧ (cset.map Line.block).Nodup) ∧
  (s.cache.flatten.map Line.timestamp).Nodup ∧
  (∀ cset ∈ s.cache, ∀ e ∈ cset, 1 ≤ e.timestamp ∧ e.timestamp ≤ s.time_counter)

/-- The nine-address forced-eviction scenario of the spec: all addresses
map to set 0. -/
def evictionAddrs : List Int := [0, 4, 8, 12, 16, 20, 24, 28, 32]

/-! ### Basic unfolding lemmas for `access` -/

theorem access_invalid (s : CacheSimulator) (a : Int) (h : s.total_memory_blocks ≤ a) :
    s.access a = { s with time_counter := s.time_counter + 1,
                          log := s.log ++ [LogEntry.invalid a] } := by
  unfold CacheSimulator.access
  rw [if_pos h]

theorem access_valid (s : CacheSimulator) (a : Int) (h : a < s.total_memory_blocks) :
    s.access a = CacheSimulator.validAccess { s with time_counter := s.time_counter + 1 } a := by
  unfold CacheSimulator.access
  rw [if_neg (not_le.mpr h)]

theorem validAccess_tmb (s : CacheSimulator) (a : Int) :
    (s.validAccess a).total_memory_blocks = s.total_memory_blocks := by
  unfold CacheSimulator.validAccess
  split_ifs <;> rfl

theorem validAccess_tc (s : CacheSimulator) (a : Int) :
    (s.validAccess a).time_counter = s.time_counter := by
  unfold CacheSimulator.validAccess
  split_ifs <;> rfl

theorem access_tmb (s : CacheSimulator) (a : Int) :
    (s.access a).total_memory_blocks = s.total_memory_blocks := by
  unfold CacheSimulator.access
  split_ifs
  · rfl
  · exact validAccess_tmb _ a

theorem access_tc (s : CacheSimulator) (a : Int) :
    (s.access a).time_counter = s.time_counter + 1 := by
  unfold CacheSimulator.access
  split_ifs
  · rfl
  · exact validAccess_tc _ a

theorem validAccess_counters (s : CacheSimulator) (a : Int) :
    (s.validAccess a).hits + (s.validAccess a).misses = s.hits + s.misses + 1 ∧
    ((s.validAccess a).hits = s.hits + 1 ∧ (s.validAccess a).misses = s.misses ∨
     (s.validAccess a).misses = s.misses + 1 ∧ (s.validAccess a).hits = s.hits) := by
  unfold CacheSimulator.validAccess
  split_ifs <;> simp <;> omega

theorem run_sequence_tmb (seq : List Int) : ∀ s : CacheSimulator,
    (s.run_sequence seq).total_memory_blocks = s.total_memory_blocks := by
  induction seq with
  | nil => intro s; rfl
  | cons a rest ih =>
    intro s
    show ((s.access a).run_sequence rest).total_memory_blocks = _
    rw [ih, access_tmb]

theorem runSeq_tmb (tmb : Int) (seq : List Int) :
    (runSeq tmb seq).total_memory_blocks = tmb := by
  unfold runSeq
  rw [run_sequence_tmb]
  rfl

/-! ### Properties of the hit-scan `touchFirst` -/

theorem touchFirst_map_block (c : List Line) (a t : Int) :
    (touchFirst c a t).map Line.block = c.map Line.block := by
  induction c with
  | nil => rfl
  | cons e rest ih =>
    unfold touchFirst
    by_cases h : e.block = a
    · simp [h]
    · simp [h, ih]

theorem touchFirst_length (c : List Line) (a t : Int) :
    (touchFirst c a t).length = c.length := by
  have := congrArg List.length (touchFirst_map_block c a t)
  simpa using this

theorem touchFirst_mem (c : List Line) (a t : Int) :
    ∀ e ∈ touchFirst c a t, e ∈ c ∨ e.timestamp = t := by
  induction c with
  | nil => intro e he; exact absurd he (by simp [touchFirst])
  | cons f rest ih =>
    intro e he
    unfold touchFirst at he
    by_cases h : f.block = a
    · rw [if_pos h] at he
      rcases List.mem_cons.mp he with rfl | hr
      · exact Or.inr rfl
      · exact Or.inl (List.mem_cons_of_mem _ hr)
    · rw [if_neg h] at he
      rcases List.mem_cons.mp he with rfl | hr
      · exact Or.inl (List.mem_cons_self _ _)
      · rcases ih e hr with h' | h'
        · exact Or.inl (List.mem_cons_of_mem _ h')
        · exact Or.inr h'

theorem touchFirst_decomp (c : List Line) (a t : Int) :
    ((∀ e ∈ c, e.block ≠ a) ∧ touchFirst c a t = c) ∨
    (∃ X e Y, c = X ++ e :: Y ∧ e.block = a ∧
      touchFirst c a t = X ++ { e with timestamp := t } :: Y) := by
  induction c with
  | nil => exact Or.inl ⟨by simp, rfl⟩
  | cons f rest ih =>
    by_cases h : f.block = a
    · exact Or.inr ⟨[], f, rest, by simp, h, by simp [touchFirst, h]⟩
    · rcases ih with ⟨hall, heq⟩ | ⟨X, e, Y, hc, hb, heq⟩
      · refine Or.inl ⟨?_, by simp [touchFirst, h, heq]⟩
        intro e he
        rcases List.mem_cons.mp he with rfl | hr
        · exact h
        · exact hall e hr
      · exact Or.inr ⟨f :: X, e, Y, by simp [hc], hb, by simp [touchFirst, h, heq]⟩

/-! ### Characterization of the MRU scan -/

theorem mruFold_char (c : List Line) : ∀ (i : Nat) (mt : Int) (mi : Option Nat),
    ((∀ e ∈ c, e.timestamp ≤ mt) ∧ mruFold c i mt mi = (mt, mi)) ∨
    (∃ k, k < c.length ∧
      (mruFold c i mt mi).2 = some (i + k) ∧
      (mruFold c i mt mi).1 = (c.getD k ⟨0, 0⟩).timestamp ∧
      mt < (c.getD k ⟨0, 0⟩).timestamp ∧
      (∀ e ∈ c, e.timestamp ≤ (c.getD k ⟨0, 0⟩).timestamp) ∧
      (∀ j, j < k → (c.getD j ⟨0, 0⟩).timestamp < (c.getD k ⟨0, 0⟩).timestamp)) := by
  induction c with
  | nil => intro i mt mi; exact Or.inl ⟨by simp, rfl⟩
  | cons e rest ih =>
    intro i mt mi
    unfold mruFold
    by_cases h : mt < e.timestamp
    · rw [if_pos h]
      rcases ih (i + 1) e.timestamp (some i) with ⟨hall, heq⟩ | ⟨k, hk, h2, h1, hgt, hmax, hfirst⟩
      · refine Or.inr ⟨0, by simp, ?_, ?_, ?_, ?_, ?_⟩
        · rw [heq]; simp
        · rw [heq]; simp [List.getD_cons_zero]
        · simpa [List.getD_cons_zero] using h
        · intro x hx
          rcases List.mem_cons.mp hx with rfl | hr
          · simp [List.getD_cons_zero]
          · simpa [List.getD_cons_zero] using hall x hr
        · intro j hj; omega
      · refine Or.inr ⟨k + 1, by simpa using hk, ?_, ?_, ?_, ?_, ?_⟩
        · rw [h2]; congr 1; omega
        · rw [h1]; simp [List.getD_cons_succ]
        · have : mt < (rest.getD k ⟨0, 0⟩).timestamp := lt_trans h hgt
          simpa [List.getD_cons_succ] using this
        · intro x hx
          rcases List.mem_cons.mp hx with rfl | hr
          · simpa [List.getD_cons_succ] using le_of_lt hgt
          · simpa [List.getD_cons_succ] using hmax x hr
        · intro j hj
          match j, hj with
          | 0, _ => simpa [List.getD_cons_zero, List.getD_cons_succ] using hgt
          | j' + 1, hj =>
            have := hfirst j' (by omega)
            simpa [List.getD_cons_succ] using this
    · rw [if_neg h]
      rcases ih (i + 1) mt mi with ⟨hall, heq⟩ | ⟨k, hk, h2, h1, hgt, hmax, hfirst⟩
      · refine Or.inl ⟨?_, heq⟩
        intro x hx
        rcases List.mem_cons.mp hx with rfl | hr
        · exact le_of_not_lt h
        · exact hall x hr
      · refine Or.inr ⟨k + 1, by simpa using hk, ?_, ?_, ?_, ?_, ?_⟩
        · rw [h2]; congr 1; omega
        · rw [h1]; simp [List.getD_cons_succ]
        · have : mt < (rest.getD k ⟨0, 0⟩).timestamp := hgt
          simpa [List.getD_cons_succ] using this
        · intro x hx
          rcases List.mem_cons.mp hx with rfl | hr
          · have hle := le_of_not_lt h
            have := le_of_lt (lt_of_le_of_lt hle hgt)
            simpa [List.getD_cons_succ] using this
          · simpa [List.getD_cons_succ] using hmax x hr
        · intro j hj
          match j, hj with
          | 0, _ =>
            have hle := le_of_not_lt h
            have := lt_of_le_of_lt hle hgt
            simpa [List.getD_cons_zero, List.getD_cons_succ] using this
          | j' + 1, hj =>
            have := hfirst j' (by omega)
            simpa [List.getD_cons_succ] using this

/-- The victim of the MRU scan, on any set holding an entry with a
timestamp above the scan's starting value -1: it exists, its slot is the
first slot attaining the maximal timestamp, and every other timestamp is
at most the victim's. -/
theorem mruIndex_spec (c : List Line) (hne : ∃ e ∈ c, -1 < e.timestamp) :
    ∃ k, k < c.length ∧ mruIndex c = some k ∧
      (∀ e ∈ c, e.timestamp ≤ (c.getD k ⟨0, 0⟩).timestamp) ∧
      (∀ j, j < k → (c.getD j ⟨0, 0⟩).timestamp < (c.getD k ⟨0, 0⟩).timestamp) := by
  rcases mruFold_char c 0 (-1) none with ⟨hall, _⟩ | ⟨k, hk, h2, _, _, hmax, hfirst⟩
  · obtain ⟨e, he, hgt⟩ := hne
    exact absurd (hall e he) (by omega)
  · refine ⟨k, hk, ?_, hmax, hfirst⟩
    unfold mruIndex
    rw [h2]
    simp

/-! ### Nodup bookkeeping helpers -/

theorem nodup_mid_fresh {α : Type} (U V : List α) (t : α)
    (h : (U ++ V).Nodup) (ht : t ∉ U ++ V) : (U ++ t :: V).Nodup :=
  List.nodup_middle.mpr (List.nodup_cons.mpr ⟨ht, h⟩)

theorem nodup_unmid {α : Type} (U V : List α) (b : α)
    (h : (U ++ b :: V).Nodup) : (U ++ V).Nodup :=
  (List.nodup_cons.mp (List.nodup_middle.mp h)).2

theorem list_decomp {α : Type} (l : List α) (d : α) (i : Nat) (h : i < l.length) :
    l = l.take i ++ l.getD i d :: l.drop (i + 1) := by
  conv_lhs => rw [← List.take_append_drop i l]
  congr 1
  rw [List.getD_eq_getElem l d h]
  exact (List.getElem_cons_drop l i h).symm

/-- All timestamps resident in a cache, in slot order. -/
def flatTS (CS : List (List Line)) : List Int := CS.flatten.map Line.timestamp

theorem flatTS_decomp (CS : List (List Line)) (si : Nat) (h : si < CS.length) :
    flatTS CS = flatTS (CS.take si) ++
      ((CS.getD si []).map Line.timestamp ++ flatTS (CS.drop (si + 1))) := by
  have h2 := congrArg flatTS (list_decomp CS [] si h)
  rw [h2]
  simp [flatTS]

theorem flatTS_set (CS : List (List Line)) (si : Nat) (c' : List Line) (h : si < CS.length) :
    flatTS (CS.set si c') = flatTS (CS.take si) ++
      (c'.map Line.timestamp ++ flatTS (CS.drop (si + 1))) := by
  rw [List.set_eq_take_cons_drop c' h]
  simp [flatTS]

theorem si_lt_num_sets (a : Int) : (a % (num_sets : Int)).toNat < num_sets := by
  have h0 : (0 : Int) < (num_sets : Int) := by norm_num [num_sets, cache_blocks, associativity]
  have h1 : 0 ≤ a % (num_sets : Int) := Int.emod_nonneg a (by omega)
  have h2 : a % (num_sets : Int) < (num_sets : Int) := Int.emod_lt_of_pos a h0
  omega

theorem WF_init (tmb : Int) : WF (CacheSimulator.init tmb) := by
  refine ⟨by simp [CacheSimulator.init], by simp [CacheSimulator.init], ?_, ?_, ?_⟩
  · intro cset hc
    have := List.eq_of_mem_replicate (by simpa [CacheSimulator.init] using hc)
    simp [this]
  · show (flatTS (CacheSimulator.init tmb).cache).Nodup
    have h4 : (CacheSimulator.init tmb).cache = [[], [], [], []] := rfl
    rw [h4]
    simp [flatTS]
  · intro cset hc e he
    have := List.eq_of_mem_replicate (by simpa [CacheSimulator.init] using hc)
    rw [this] at he
    exact absurd he (List.not_mem_nil e)

/-- One valid access preserves well-formedness.  The hypotheses are the
`WF` facts for the pre-state of `validAccess`, whose clock was already
bumped, so resident timestamps are strictly below it. -/
theorem WF_validAccess (s : CacheSimulator) (a : Int)
    (hlen : s.cache.length = num_sets)
    (htc : 1 ≤ s.time_counter)
    (hsets : ∀ cset ∈ s.cache, cset.length ≤ associativity ∧ (cset.map Line.block).Nodup)
    (hnd : (s.cache.flatten.map Line.timestamp).Nodup)
    (hbound : ∀ cset ∈ s.cache, ∀ e ∈ cset, 1 ≤ e.timestamp ∧ e.timestamp < s.time_counter) :
    WF (s.validAccess a) := by
  have hsil : (a % (num_sets : Int)).toNat < s.cache.length := by
    rw [hlen]; exact si_lt_num_sets a
  have hmemc : cacheSetOf s a ∈ s.cache := by
    unfold cacheSetOf
    rw [List.getD_eq_getElem s.cache [] hsil]
    exact List.getElem_mem hsil
  have hndf : (flatTS s.cache).Nodup := hnd
  have hflat : flatTS s.cache =
      flatTS (s.cache.take (a % (num_sets : Int)).toNat) ++
        ((cacheSetOf s a).map Line.timestamp ++
          flatTS (s.cache.drop ((a % (num_sets : Int)).toNat + 1))) :=
    flatTS_decomp s.cache _ hsil
  have hltflat : ∀ x ∈ flatTS s.cache, x < s.time_counter := by
    intro x hx
    rcases List.mem_map.mp hx with ⟨e, he, rfl⟩
    rcases List.mem_flatten.mp he with ⟨c₂, hc₂, he₂⟩
    exact (hbound c₂ hc₂ e he₂).2
  have hfresh : s.time_counter ∉ flatTS s.cache := fun hm => absurd (hltflat _ hm) (lt_irrefl _)
  unfold CacheSimulator.validAccess
  split_ifs with hany hroom
  · -- HIT branch
    refine ⟨by simpa [List.length_set] using hlen, by show (0:Int) ≤ s.time_counter; omega, ?_, ?_, ?_⟩
    · intro c₂ hc₂
      rcases List.mem_or_eq_of_mem_set hc₂ with hold | rfl
      · exact hsets c₂ hold
      · refine ⟨?_, ?_⟩
        · rw [touchFirst_length]; exact (hsets _ hmemc).1
        · rw [touchFirst_map_block]; exact (hsets _ hmemc).2
    · show (flatTS (s.cache.set (a % (num_sets : Int)).toNat
        (touchFirst (cacheSetOf s a) a s.time_counter))).Nodup
      rw [flatTS_set _ _ _ hsil]
      rcases touchFirst_decomp (cacheSetOf s a) a s.time_counter with ⟨_, heq⟩ |
        ⟨X, e, Y, hcd, _, heq⟩
      · rw [heq, ← hflat]
        exact hndf
      · rw [heq]
        have hold : flatTS s.cache =
            (flatTS (s.cache.take (a % (num_sets : Int)).toNat) ++ X.map Line.timestamp) ++
              e.timestamp :: (Y.map Line.timestamp ++
                flatTS (s.cache.drop ((a % (num_sets : Int)).toNat + 1))) := by
          conv_lhs => rw [hflat, hcd]
          simp [List.append_assoc]
        have hres : flatTS (s.cache.take (a % (num_sets : Int)).toNat) ++
            ((X ++ { e with timestamp := s.time_counter } :: Y).map Line.timestamp ++
              flatTS (s.cache.drop ((a % (num_sets : Int)).toNat + 1))) =
            (flatTS (s.cache.take (a % (num_sets : Int)).toNat) ++ X.map Line.timestamp) ++
              s.time_counter :: (Y.map Line.timestamp ++
                flatTS (s.cache.drop ((a % (num_sets : Int)).toNat + 1))) := by
          simp [List.append_assoc]
        rw [hres]
        apply nodup_mid_fresh
        · have h2 := hndf
          rw [hold] at h2
          exact nodup_unmid _ _ _ h2
        · intro hm
          apply hfresh
          rw [hold]
          simp only [List.mem_append, List.mem_cons] at hm ⊢
          tauto
    · intro c₂ hc₂ e' he'
      rcases List.mem_or_eq_of_mem_set hc₂ with hold | rfl
      · have := hbound c₂ hold e' he'
        exact ⟨this.1, le_of_lt this.2⟩
      · rcases touchFirst_mem _ a s.time_counter e' he' with hin | hts
        · have := hbound _ hmemc e' hin
          exact ⟨this.1, le_of_lt this.2⟩
        · rw [hts]
          exact ⟨htc, le_refl _⟩
  · -- MISS branch, room in the set
    have hnot : ∀ e ∈ cacheSetOf s a, e.block ≠ a := by
      simpa [List.any_eq_true] using hany
    refine ⟨by simpa [List.length_set] using hlen, by show (0:Int) ≤ s.time_counter; omega, ?_, ?_, ?_⟩
    · intro c₂ hc₂
      rcases List.mem_or_eq_of_mem_set hc₂ with hold | rfl
      · exact hsets c₂ hold
      · refine ⟨by simp [associativity] at hroom ⊢; omega, ?_⟩
        have hres : ((cacheSetOf s a ++ [(⟨a, s.time_counter⟩ : Line)]).map Line.block) =
            (cacheSetOf s a).map Line.block ++ a :: [] := by simp
        rw [hres]
        apply nodup_mid_fresh
        · simpa using (hsets _ hmemc).2
        · intro hm
          rcases List.mem_map.mp (by simpa using hm) with ⟨e, he, hba⟩
          exact hnot e he hba
    · show (flatTS (s.cache.set (a % (num_sets : Int)).toNat
        (cacheSetOf s a ++ [(⟨a, s.time_counter⟩ : Line)]))).Nodup
      rw [flatTS_set _ _ _ hsil]
      have hold : flatTS s.cache =
          (flatTS (s.cache.take (a % (num_sets : Int)).toNat) ++
            (cacheSetOf s a).map Line.timestamp) ++
            flatTS (s.cache.drop ((a % (num_sets : Int)).toNat + 1)) := by
        rw [hflat]
        simp [List.append_assoc]
      have hres : flatTS (s.cache.take (a % (num_sets : Int)).toNat) ++
          ((cacheSetOf s a ++ [(⟨a, s.time_counter⟩ : Line)]).map Line.timestamp ++
            flatTS (s.cache.drop ((a % (num_sets : Int)).toNat + 1))) =
          (flatTS (s.cache.take (a % (num_sets : Int)).toNat) ++
            (cacheSetOf s a).map Line.timestamp) ++
            s.time_counter :: flatTS (s.cache.drop ((a % (num_sets : Int)).toNat + 1)) := by
        simp [List.append_assoc]
      rw [hres]
      apply nodup_mid_fresh
      · rw [← hold]
        exact hndf
      · intro hm
        apply hfresh
        rw [hold]
        simp only [List.mem_append, List.mem_cons] at hm ⊢
        tauto
    · intro c₂ hc₂ e' he'
      rcases List.mem_or_eq_of_mem_set hc₂ with hold | rfl
      · have := hbound c₂ hold e' he'
        exact ⟨this.1, le_of_lt this.2⟩
      · rcases List.mem_append.mp he' with hin | hnew
        · have := hbound _ hmemc e' hin
          exact ⟨this.1, le_of_lt this.2⟩
        · have : e' = (⟨a, s.time_counter⟩ : Line) := by simpa using hnew
          rw [this]
          exact ⟨htc, le_refl _⟩
  · -- MISS branch, set full: MRU eviction
    have hnot : ∀ e ∈ cacheSetOf s a, e.block ≠ a := by
      simpa [List.any_eq_true] using hany
    have hcne : cacheSetOf s a ≠ [] := by
      intro h0
      rw [h0] at hroom
      exact hroom (by norm_num [associativity])
    obtain ⟨e₀, he₀⟩ := List.exists_mem_of_ne_nil _ hcne
    have hex : ∃ e ∈ cacheSetOf s a, -1 < e.timestamp :=
      ⟨e₀, he₀, by have := (hbound _ hmemc e₀ he₀).1; omega⟩
    obtain ⟨k, hk, hkeq, hmax, hfirst⟩ := mruIndex_spec _ hex
    have hk0 : (mruIndex (cacheSetOf s a)).getD 0 = k := by rw [hkeq]; rfl
    have hcd := list_decomp (cacheSetOf s a) ⟨0, 0⟩ k hk
    have hc' : (cacheSetOf s a).set ((mruIndex (cacheSetOf s a)).getD 0)
        (⟨a, s.time_counter⟩ : Line) =
        (cacheSetOf s a).take k ++ (⟨a, s.time_counter⟩ : Line) ::
          (cacheSetOf s a).drop (k + 1) := by
      rw [hk0]
      exact List.set_eq_take_cons_drop _ hk
    refine ⟨by simpa [List.length_set] using hlen, by show (0:Int) ≤ s.time_counter; omega, ?_, ?_, ?_⟩
    · intro c₂ hc₂
      rcases List.mem_or_eq_of_mem_set hc₂ with hold | rfl
      · exact hsets c₂ hold
      · refine ⟨by simpa [List.length_set] using (hsets _ hmemc).1, ?_⟩
        rw [hc']
        have hres : (((cacheSetOf s a).take k ++ (⟨a, s.time_counter⟩ : Line) ::
            (cacheSetOf s a).drop (k + 1)).map Line.block) =
            ((cacheSetOf s a).take k).map Line.block ++
              a :: ((cacheSetOf s a).drop (k + 1)).map Line.block := by simp
        rw [hres]
        apply nodup_mid_fresh
        · have hbold := congrArg (List.map Line.block) hcd
          simp only [List.map_append, List.map_cons] at hbold
          have h2 := (hsets _ hmemc).2
          rw [hbold] at h2
          exact nodup_unmid _ _ _ h2
        · intro hm
          rcases List.mem_append.mp hm with hm | hm
          · rcases List.mem_map.mp hm with ⟨e, he, hba⟩
            exact hnot e (List.mem_of_mem_take he) hba
          · rcases List.mem_map.mp hm with ⟨e, he, hba⟩
            exact hnot e (List.mem_of_mem_drop he) hba
    · show (flatTS (s.cache.set (a % (num_sets : Int)).toNat
        ((cacheSetOf s a).set ((mruIndex (cacheSetOf s a)).getD 0)
          (⟨a, s.time_counter⟩ : Line)))).Nodup
      rw [flatTS_set _ _ _ hsil, hc']
      have hold : flatTS s.cache =
          (flatTS (s.cache.take (a % (num_sets : Int)).toNat) ++
            ((cacheSetOf s a).take k).map Line.timestamp) ++
            ((cacheSetOf s a).getD k ⟨0, 0⟩).timestamp ::
              (((cacheSetOf s a).drop (k + 1)).map Line.timestamp ++
                flatTS (s.cache.drop ((a % (num_sets : Int)).toNat + 1))) := by
        conv_lhs => rw [hflat, hcd]
        simp [List.append_assoc]
      have hres : flatTS (s.cache.take (a % (num_sets : Int)).toNat) ++
          (((cacheSetOf s a).take k ++ (⟨a, s.time_counter⟩ : Line) ::
            (cacheSetOf s a).drop (k + 1)).map Line.timestamp ++
            flatTS (s.cache.drop ((a % (num_sets : Int)).toNat + 1))) =
          (flatTS (s.cache.take (a % (num_sets : Int)).toNat) ++
            ((cacheSetOf s a).take k).map Line.timestamp) ++
            s.time_counter :: (((cacheSetOf s a).drop (k + 1)).map Line.timestamp ++
              flatTS (s.cache.drop ((a % (num_sets : Int)).toNat + 1))) := by
        simp [List.append_assoc]
      rw [hres]
      apply nodup_mid_fresh
      · have h2 := hndf
        rw [hold] at h2
        exact nodup_unmid _ _ _ h2
      · intro hm
        apply hfresh
        rw [hold]
        simp only [List.mem_append, List.mem_cons] at hm ⊢
        tauto
    · intro c₂ hc₂ e' he'
      rcases List.mem_or_eq_of_mem_set hc₂ with hold | rfl
      · have := hbound c₂ hold e' he'
        exact ⟨this.1, le_of_lt this.2⟩
      · rcases List.mem_or_eq_of_mem_set he' with hin | rfl
        · have := hbound _ hmemc e' hin
          exact ⟨this.1, le_of_lt this.2⟩
        · exact ⟨htc, le_refl _⟩

/-- Any access, valid or invalid, preserves well-formedness. -/
theorem WF_access (s : CacheSimulator) (a : Int) (h : WF s) : WF (s.access a) := by
  obtain ⟨hlen, htc, hsets, hnd, hbound⟩ := h
  unfold CacheSimulator.access
  split_ifs with hv
  · refine ⟨hlen, by show (0:Int) ≤ s.time_counter + 1; omega, hsets, hnd, ?_⟩
    intro cset hc e he
    have := hbound cset hc e he
    refine ⟨this.1, ?_⟩
    show e.timestamp ≤ s.time_counter + 1
    omega
  · apply WF_validAccess
    · exact hlen
    · show 1 ≤ s.time_counter + 1
      omega
    · exact hsets
    · exact hnd
    · intro cset hc e he
      have := hbound cset hc e he
      refine ⟨this.1, ?_⟩
      show e.timestamp < s.time_counter + 1
      omega

theorem WF_run (seq : List Int) : ∀ s : CacheSimulator, WF s → WF (s.run_sequence seq) := by
  induction seq with
  | nil => intro s h; exact h
  | cons a rest ih =>
    intro s h
    show WF ((s.access a).run_sequence rest)
    exact ih _ (WF_access s a h)

/-- Every reachable state is well-formed. -/
theorem WF_runSeq (tmb : Int) (seq : List Int) : WF (runSeq tmb seq) :=
  WF_run seq _ (WF_init tmb)

/-! ### Counter bookkeeping -/

theorem access_counters_invalid (s : CacheSimulator) (a : Int)
    (h : s.total_memory_blocks ≤ a) :
    (s.access a).hits = s.hits ∧ (s.access a).misses = s.misses := by
  rw [access_invalid s a h]
  exact ⟨rfl, rfl⟩

theorem access_counters_valid (s : CacheSimulator) (a : Int)
    (h : a < s.total_memory_blocks) :
    (s.access a).hits + (s.access a).misses = s.hits + s.misses + 1 ∧
    ((s.access a).hits = s.hits + 1 ∧ (s.access a).misses = s.misses ∨
     (s.access a).misses = s.misses + 1 ∧ (s.access a).hits = s.hits) := by
  rw [access_valid s a h]
  exact validAccess_counters { s with time_counter := s.time_counter + 1 } a

theorem run_sequence_counters (seq : List Int) : ∀ s : CacheSimulator,
    (s.run_sequence seq).hits + (s.run_sequence seq).misses =
      s.hits + s.misses + seq.countP (fun x => decide (x < s.total_memory_blocks)) := by
  induction seq with
  | nil => intro s; simp [CacheSimulator.run_sequence]
  | cons a rest ih =>
    intro s
    show ((s.access a).run_sequence rest).hits + ((s.access a).run_sequence rest).misses = _
    rw [ih (s.access a)]
    simp only [access_tmb]
    rw [List.countP_cons]
    by_cases hv : a < s.total_memory_blocks
    · have h1 := access_counters_valid s a hv
      have h2 : decide (a < s.total_memory_blocks) = true := by simpa using hv
      rw [h2]
      have := h1.1
      simp only [if_pos rfl, if_true]
      omega
    · have h1 := access_counters_invalid s a (not_lt.mp hv)
      have h2 : decide (a < s.total_memory_blocks) = false := by simpa using hv
      rw [h2, h1.1, h1.2]
      simp

theorem runSeq_counters (tmb : Int) (seq : List Int) :
    (runSeq tmb seq).hits + (runSeq tmb seq).misses =
      seq.countP (fun x => decide (x < tmb)) := by
  have h := run_sequence_counters seq (CacheSimulator.init tmb)
  simpa [CacheSimulator.init] using h

/-! ### Replaying a sequence of in-range addresses -/

/-- One valid access step, as a function of the pre-state: the clock
bump followed by the body of `access`. -/
def vstep (s : CacheSimulator) (a : Int) : CacheSimulator :=
  CacheSimulator.validAccess { s with time_counter := s.time_counter + 1 } a

theorem vstep_tmb (s : CacheSimulator) (a : Int) :
    (vstep s a).total_memory_blocks = s.total_memory_blocks := by
  unfold vstep
  rw [validAccess_tmb]

theorem run_sequence_valid (seq : List Int) : ∀ s : CacheSimulator,
    (∀ a ∈ seq, a < s.total_memory_blocks) → s.run_sequence seq = seq.foldl vstep s := by
  induction seq with
  | nil => intro s _; rfl
  | cons a rest ih =>
    intro s h
    show (s.access a).run_sequence rest = rest.foldl vstep (vstep s a)
    have ha : a < s.total_memory_blocks := h a (List.mem_cons_self _ _)
    rw [access_valid s a ha]
    show (vstep s a).run_sequence rest = rest.foldl vstep (vstep s a)
    refine ih _ ?_
    intro b hb
    rw [vstep_tmb]
    exact h b (List.mem_cons_of_mem _ hb)

theorem runSeq_valid_foldl (tmb : Int) (seq : List Int) (h : ∀ a ∈ seq, a < tmb) :
    runSeq tmb seq = seq.foldl vstep (CacheSimulator.init tmb) := by
  unfold runSeq
  apply run_sequence_valid
  intro a ha
  show a < tmb
  exact h a ha

theorem cacheSetOf_mem (s : CacheSimulator) (a : Int)
    (h : (a % (num_sets : Int)).toNat < s.cache.length) : cacheSetOf s a ∈ s.cache := by
  unfold cacheSetOf
  rw [List.getD_eq_getElem s.cache [] h]
  exact List.getElem_mem h

/-- MRU eviction on any well-formed state: when a valid address misses
in a full set, the victim slot is the first slot holding the maximal
timestamp, it is overwritten in place by the new block stamped with the
current clock, and exactly one line of the set then carries the new
block. -/
theorem mru_eviction_general (s : CacheSimulator) (a : Int)
    (hwf : WF s) (hv : a < s.total_memory_blocks)
    (hfull : (cacheSetOf s a).length = associativity)
    (hmiss : ∀ e ∈ cacheSetOf s a, e.block ≠ a) :
    ∃ k, k < (cacheSetOf s a).length ∧
      mruIndex (cacheSetOf s a) = some k ∧
      (∀ e ∈ cacheSetOf s a,
        e.timestamp ≤ ((cacheSetOf s a).getD k ⟨0, 0⟩).timestamp) ∧
      (∀ j, j < k →
        ((cacheSetOf s a).getD j ⟨0, 0⟩).timestamp <
          ((cacheSetOf s a).getD k ⟨0, 0⟩).timestamp) ∧
      cacheSetOf (s.access a) a =
        (cacheSetOf s a).set k ⟨a, s.time_counter + 1⟩ ∧
      (cacheSetOf (s.access a) a).countP (fun e => decide (e.block = a)) = 1 ∧
      (∀ e ∈ cacheSetOf (s.access a) a,
        e.block = a → e.timestamp = (s.access a).time_counter) ∧
      (s.access a).time_counter = s.time_counter + 1 := by
  obtain ⟨hlen, htc0, hsets, hnd, hbound⟩ := hwf
  have hsil : (a % (num_sets : Int)).toNat < s.cache.length := by
    rw [hlen]; exact si_lt_num_sets a
  have hmemc : cacheSetOf s a ∈ s.cache := cacheSetOf_mem s a hsil
  have hnonempty : cacheSetOf s a ≠ [] := by
    intro h0
    rw [h0] at hfull
    exact absurd hfull.symm (by norm_num [associativity])
  obtain ⟨e₀, he₀⟩ := List.exists_mem_of_ne_nil _ hnonempty
  have hne : ∃ e ∈ cacheSetOf s a, -1 < e.timestamp :=
    ⟨e₀, he₀, by have := (hbound _ hmemc e₀ he₀).1; omega⟩
  obtain ⟨k, hk, hkeq, hmax, hfirst⟩ := mruIndex_spec _ hne
  have hk0 : (mruIndex (cacheSetOf s a)).getD 0 = k := by rw [hkeq]; rfl
  have hacc := access_valid s a hv
  have hany : ((cacheSetOf { s with time_counter := s.time_counter + 1 } a).any
      (fun e => e.block = a)) = false := by
    rw [List.any_eq_false]
    intro e he
    simpa using hmiss e he
  have hroom : ¬ (cacheSetOf { s with time_counter := s.time_counter + 1 } a).length <
      associativity := by
    have h8 : (cacheSetOf { s with time_counter := s.time_counter + 1 } a).length =
        associativity := hfull
    omega
  have hkey : cacheSetOf (s.access a) a =
      (cacheSetOf s a).set k ⟨a, s.time_counter + 1⟩ := by
    rw [hacc]
    unfold CacheSimulator.validAccess
    rw [if_neg (by simp [hany]), if_neg hroom]
    show (s.cache.set (a % (num_sets : Int)).toNat
      ((cacheSetOf s a).set ((mruIndex (cacheSetOf s a)).getD 0)
        ⟨a, s.time_counter + 1⟩)).getD (a % (num_sets : Int)).toNat [] = _
    rw [hk0]
    rw [List.getD_eq_getElem _ [] (by rw [List.length_set]; exact hsil)]
    exact List.getElem_set_self (by rw [List.length_set]; exact hsil)
  have hc' : (cacheSetOf s a).set k ⟨a, s.time_counter + 1⟩ =
      (cacheSetOf s a).take k ++ (⟨a, s.time_counter + 1⟩ : Line) ::
        (cacheSetOf s a).drop (k + 1) := List.set_eq_take_cons_drop _ hk
  refine ⟨k, hk, hkeq, hmax, hfirst, hkey, ?_, ?_, access_tc s a⟩
  · have ht0 : ((cacheSetOf s a).take k).countP (fun e => decide (e.block = a)) = 0 :=
      List.countP_eq_zero.mpr (fun e he => by simpa using hmiss e (List.mem_of_mem_take he))
    have hd0 : ((cacheSetOf s a).drop (k + 1)).countP (fun e => decide (e.block = a)) = 0 :=
      List.countP_eq_zero.mpr (fun e he => by simpa using hmiss e (List.mem_of_mem_drop he))
    rw [hkey, hc', List.countP_append, List.countP_cons, ht0, hd0]
    simp
  · intro e he hba
    rw [hkey] at he
    rcases List.mem_or_eq_of_mem_set he with hin | rfl
    · exact absurd hba (hmiss e hin)
    · show (⟨a, s.time_counter + 1⟩ : Line).timestamp = (s.access a).time_counter
      rw [access_tc]

/-! ### Claim theorems -/

/-- Claim C1: in every reachable state, a valid address that misses in a
full set evicts the line with the maximal `lastTouched` value, ties
broken by the first such slot in ascending scan order; the victim slot
is overwritten in place, and afterwards exactly one line of that set
carries the new address, stamped with the current logical clock. -/
theorem C1_mru_replacement (tmb : Int) (seq : List Int) (a : Int)
    (h0 : 0 ≤ a) (h1 : a < tmb)
    (hfull : (cacheSetOf (runSeq tmb seq) a).length = associativity)
    (hmiss : ∀ e ∈ cacheSetOf (runSeq tmb seq) a, e.block ≠ a) :
    ∃ k, k < (cacheSetOf (runSeq tmb seq) a).length ∧
      mruIndex (cacheSetOf (runSeq tmb seq) a) = some k ∧
      (∀ e ∈ cacheSetOf (runSeq tmb seq) a,
        e.timestamp ≤ ((cacheSetOf (runSeq tmb seq) a).getD k ⟨0, 0⟩).timestamp) ∧
      (∀ j, j < k →
        ((cacheSetOf (runSeq tmb seq) a).getD j ⟨0, 0⟩).timestamp <
          ((cacheSetOf (runSeq tmb seq) a).getD k ⟨0, 0⟩).timestamp) ∧
      cacheSetOf ((runSeq tmb seq).access a) a =
        (cacheSetOf (runSeq tmb seq) a).set k ⟨a, (runSeq tmb seq).time_counter + 1⟩ ∧
      (cacheSetOf ((runSeq tmb seq).access a) a).countP
        (fun e => decide (e.block = a)) = 1 ∧
      (∀ e ∈ cacheSetOf ((runSeq tmb seq).access a) a,
        e.block = a → e.timestamp = ((runSeq tmb seq).access a).time_counter) ∧
      ((runSeq tmb seq).access a).time_counter = (runSeq tmb seq).time_counter + 1 :=
  mru_eviction_general (runSeq tmb seq) a (WF_runSeq tmb seq)
    (by rw [runSeq_tmb]; exact h1) hfull hmiss

/-- Witness for C1: the eight addresses 1,5,...,29 fill set 1 of a fresh
engine; address 33 then misses in the full set. -/
theorem C1_witness :
    ((0 : Int) ≤ 33 ∧ (33 : Int) < 1024 ∧
      (cacheSetOf (runSeq 1024 [1, 5, 9, 13, 17, 21, 25, 29]) 33).length = associativity ∧
      (∀ e ∈ cacheSetOf (runSeq 1024 [1, 5, 9, 13, 17, 21, 25, 29]) 33, e.block ≠ 33)) ∧
    (∃ k, k < (cacheSetOf (runSeq 1024 [1, 5, 9, 13, 17, 21, 25, 29]) 33).length ∧
      mruIndex (cacheSetOf (runSeq 1024 [1, 5, 9, 13, 17, 21, 25, 29]) 33) = some k ∧
      (∀ e ∈ cacheSetOf (runSeq 1024 [1, 5, 9, 13, 17, 21, 25, 29]) 33,
        e.timestamp ≤ ((cacheSetOf (runSeq 1024 [1, 5, 9, 13, 17, 21, 25, 29]) 33).getD k
          ⟨0, 0⟩).timestamp) ∧
      (∀ j, j < k →
        ((cacheSetOf (runSeq 1024 [1, 5, 9, 13, 17, 21, 25, 29]) 33).getD j
          ⟨0, 0⟩).timestamp <
          ((cacheSetOf (runSeq 1024 [1, 5, 9, 13, 17, 21, 25, 29]) 33).getD k
            ⟨0, 0⟩).timestamp) ∧
      cacheSetOf ((runSeq 1024 [1, 5, 9, 13, 17, 21, 25, 29]).access 33) 33 =
        (cacheSetOf (runSeq 1024 [1, 5, 9, 13, 17, 21, 25, 29]) 33).set k
          ⟨33, (runSeq 1024 [1, 5, 9, 13, 17, 21, 25, 29]).time_counter + 1⟩ ∧
      (cacheSetOf ((runSeq 1024 [1, 5, 9, 13, 17, 21, 25, 29]).access 33) 33).countP
        (fun e => decide (e.block = 33)) = 1 ∧
      (∀ e ∈ cacheSetOf ((runSeq 1024 [1, 5, 9, 13, 17, 21, 25, 29]).access 33) 33,
        e.block = 33 →
          e.timestamp = ((runSeq 1024 [1, 5, 9, 13, 17, 21, 25, 29]).access 33).time_counter) ∧
      ((runSeq 1024 [1, 5, 9, 13, 17, 21, 25, 29]).access 33).time_counter =
        (runSeq 1024 [1, 5, 9, 13, 17, 21, 25, 29]).time_counter + 1) :=
  ⟨⟨by decide, by decide, by decide, by decide⟩,
    C1_mru_replacement 1024 [1, 5, 9, 13, 17, 21, 25, 29] 33
      (by decide) (by decide) (by decide) (by decide)⟩

/-- Claim C2 (counterexample): the code checks only the upper bound, so
access(-1) on a fresh engine with totalAddressSpace 1024 is processed as
an ordinary miss: the miss counter becomes 1, the trace records a miss
and a load (not an invalid-address entry), and set 3 gains a line. -/
theorem C2_counterexample :
    (runSeq 1024 [-1]).misses = 1 ∧ (runSeq 1024 [-1]).hits = 0 ∧
    (runSeq 1024 [-1]).log = [LogEntry.miss (-1) 3, LogEntry.loaded (-1) 3] ∧
    (runSeq 1024 [-1]).cache ≠ (CacheSimulator.init 1024).cache := by
  refine ⟨rfl, rfl, rfl, ?_⟩
  decide

/-- Claim C2 (amended): only `address ≥ totalAddressSpace` is treated as
invalid; such an access appends exactly one invalid-address trace entry,
changes neither counter, leaves all sets unchanged and returns normally.
The `address < 0` half of the claim does not hold on the code: negative
addresses are processed as ordinary accesses (see the counterexample and
claim C10). -/
theorem C2_invalid_address (s : CacheSimulator) (a : Int)
    (h : s.total_memory_blocks ≤ a) :
    (s.access a).log = s.log ++ [LogEntry.invalid a] ∧
    (s.access a).hits = s.hits ∧
    (s.access a).misses = s.misses ∧
    (s.access a).cache = s.cache ∧
    (s.access a).time_counter = s.time_counter + 1 := by
  rw [access_invalid s a h]
  exact ⟨rfl, rfl, rfl, rfl, rfl⟩

/-- Witness for C2: address 7 against a 4-block engine. -/
theorem C2_witness :
    (CacheSimulator.init 4).total_memory_blocks ≤ 7 ∧
    (((CacheSimulator.init 4).access 7).log =
      (CacheSimulator.init 4).log ++ [LogEntry.invalid 7] ∧
    ((CacheSimulator.init 4).access 7).hits = (CacheSimulator.init 4).hits ∧
    ((CacheSimulator.init 4).access 7).misses = (CacheSimulator.init 4).misses ∧
    ((CacheSimulator.init 4).access 7).cache = (CacheSimulator.init 4).cache ∧
    ((CacheSimulator.init 4).access 7).time_counter =
      (CacheSimulator.init 4).time_counter + 1) :=
  ⟨by decide, C2_invalid_address (CacheSimulator.init 4) 7 (by decide)⟩

/-- Claim C7 (counterexample): construction with the non-positive
totalAddressSpace 0 succeeds: the constructor returns the ordinary fresh
state and the engine even processes a further access (address -3, which
passes the upper-bound check and is counted as a miss), so nothing fails
fast. -/
theorem C7_counterexample :
    CacheSimulator.init 0 =
      { total_memory_blocks := 0, cache := [[], [], [], []], time_counter := 0,
        hits := 0, misses := 0, log := [] } ∧
    ((CacheSimulator.init 0).access (-3)).misses = 1 := by
  exact ⟨rfl, rfl⟩

/-- Claim C7 (amended): the engine constructor performs no validation:
for every totalAddressSpace, non-positive values included, construction
succeeds and yields the same fresh state (4 empty sets, zero counters,
empty trace).  The minimum of 1024 in the application is enforced by the
GUI layer before the engine is built, not by the engine itself. -/
theorem C7_no_validation (tmb : Int) :
    CacheSimulator.init tmb =
      { total_memory_blocks := tmb, cache := [[], [], [], []], time_counter := 0,
        hits := 0, misses := 0, log := [] } := rfl

/-- Claim C10: an `access` with any integer address below
totalAddressSpace — negative addresses included — is processed as an
ordinary hit-or-miss access: the set index `address mod 4` is in bounds
for the four-element sets list, exactly one counter is incremented, and
the appended trace entries are a hit entry or a miss entry followed by a
load or replacement, never an invalid-address entry. -/
theorem C10_negative_addresses (s : CacheSimulator) (a : Int)
    (h : a < s.total_memory_blocks) :
    (a % (num_sets : Int)).toNat < num_sets ∧
    (s.access a).hits + (s.access a).misses = s.hits + s.misses + 1 ∧
    ((s.access a).hits = s.hits + 1 ∧
       (s.access a).log = s.log ++ [LogEntry.hit a (a % (num_sets : Int)).toNat] ∨
     (s.access a).misses = s.misses + 1 ∧
       (∃ t : LogEntry, (s.access a).log =
          s.log ++ [LogEntry.miss a (a % (num_sets : Int)).toNat, t])) := by
  refine ⟨si_lt_num_sets a, (access_counters_valid s a h).1, ?_⟩
  rw [access_valid s a h]
  unfold CacheSimulator.validAccess
  split_ifs with hany hroom
  · left
    exact ⟨rfl, rfl⟩
  · right
    exact ⟨rfl, ⟨_, rfl⟩⟩
  · right
    exact ⟨rfl, ⟨_, rfl⟩⟩

/-- Witness for C10: the negative address -1 on a fresh 1024-block
engine maps to set 3 and is counted as a miss. -/
theorem C10_witness :
    ((-1 : Int) < (CacheSimulator.init 1024).total_memory_blocks) ∧
    (((-1 : Int) % (num_sets : Int)).toNat < num_sets ∧
    ((CacheSimulator.init 1024).access (-1)).hits +
      ((CacheSimulator.init 1024).access (-1)).misses =
      (CacheSimulator.init 1024).hits + (CacheSimulator.init 1024).misses + 1 ∧
    (((CacheSimulator.init 1024).access (-1)).hits = (CacheSimulator.init 1024).hits + 1 ∧
       ((CacheSimulator.init 1024).access (-1)).log = (CacheSimulator.init 1024).log ++
         [LogEntry.hit (-1) ((-1 : Int) % (num_sets : Int)).toNat] ∨
     ((CacheSimulator.init 1024).access (-1)).misses =
         (CacheSimulator.init 1024).misses + 1 ∧
       (∃ t : LogEntry, ((CacheSimulator.init 1024).access (-1)).log =
          (CacheSimulator.init 1024).log ++
            [LogEntry.miss (-1) ((-1 : Int) % (num_sets : Int)).toNat, t]))) :=
  ⟨by decide, C10_negative_addresses (CacheSimulator.init 1024) (-1) (by decide)⟩

/-- Claim C3: in every state reachable by any sequence of accesses from
a fresh engine, every set holds at most 8 lines and no two lines of the
same set share a block address. -/
theorem C3_capacity_uniqueness (tmb : Int) (seq : List Int) :
    ∀ cset ∈ (runSeq tmb seq).cache, cset.length ≤ associativity ∧
      List.Pairwise (fun e f : Line => e.block ≠ f.block) cset := by
  have h := WF_runSeq tmb seq
  intro cset hc
  refine ⟨(h.2.2.1 cset hc).1, ?_⟩
  have h2 : List.Pairwise (fun x y : Int => x ≠ y) (cset.map Line.block) :=
    (h.2.2.1 cset hc).2
  exact List.pairwise_map.mp h2

/-- Claim C4 (counterexample): the access -1 on a fresh 1024-block
engine is out of range in the claim's sense (0 ≤ address fails), yet it
increments the miss counter: the counter total is 1 while the number of
in-range calls is 0. -/
theorem C4_counterexample :
    (runSeq 1024 [-1]).hits + (runSeq 1024 [-1]).misses = 1 ∧
    ([(-1 : Int)].countP (fun x => decide (0 ≤ x ∧ x < 1024))) = 0 := by
  exact ⟨rfl, rfl⟩

/-- Claim C4 (amended): hitCount + missCount equals the number of access
calls whose address passed the code's only range check,
`address < totalAddressSpace` (negative addresses included); a call with
address ≥ totalAddressSpace changes neither counter, and every accepted
call increments exactly one of the two counters by one. -/
theorem C4_counter_conservation (tmb : Int) (seq : List Int)
    (s : CacheSimulator) (a : Int) :
    ((runSeq tmb seq).hits + (runSeq tmb seq).misses =
      seq.countP (fun x => decide (x < tmb))) ∧
    (s.total_memory_blocks ≤ a →
      (s.access a).hits = s.hits ∧ (s.access a).misses = s.misses) ∧
    (a < s.total_memory_blocks →
      (s.access a).hits + (s.access a).misses = s.hits + s.misses + 1 ∧
      ((s.access a).hits = s.hits + 1 ∧ (s.access a).misses = s.misses ∨
       (s.access a).misses = s.misses + 1 ∧ (s.access a).hits = s.hits)) :=
  ⟨runSeq_counters tmb seq, access_counters_invalid s a, access_counters_valid s a⟩

/-- Witness for C4: the run 3, 9, 3 against an 8-block engine has two
accepted calls (3 twice) and one rejected call (9). -/
theorem C4_witness :
    ((runSeq 8 [3, 9, 3]).hits + (runSeq 8 [3, 9, 3]).misses =
      [3, 9, 3].countP (fun x => decide (x < (8 : Int)))) ∧
    ((CacheSimulator.init 8).access 9).hits = 0 ∧
    ((CacheSimulator.init 8).access 9).misses = 0 ∧
    ((CacheSimulator.init 8).access 3).hits + ((CacheSimulator.init 8).access 3).misses = 1 := by
  refine ⟨(C4_counter_conservation 8 [3, 9, 3] (CacheSimulator.init 8) 9).1, ?_, ?_, ?_⟩
  · exact ((C4_counter_conservation 8 [3, 9, 3] (CacheSimulator.init 8) 9).2.1 (by decide)).1
  · exact ((C4_counter_conservation 8 [3, 9, 3] (CacheSimulator.init 8) 9).2.1 (by decide)).2
  · exact ((C4_counter_conservation 8 [3, 9, 3] (CacheSimulator.init 8) 3).2.2 (by decide)).1

/-- Claim C5: the statistics record satisfies the spec's formulas:
totalAccesses = hitCount + missCount, the two rates are the guarded
quotients (0 when the total is 0), totalMemoryAccessTime =
hitCount * 1 + missCount * 101, averageMemoryAccessTime the guarded
quotient; in particular 3 hits and 2 misses give 205 and exactly 41. -/
theorem C5_statistics (s : CacheSimulator) :
    (s.get_statistics).totalAccesses = s.hits + s.misses ∧
    (s.get_statistics).hits = s.hits ∧
    (s.get_statistics).misses = s.misses ∧
    (s.get_statistics).hit_rate =
      (if s.hits + s.misses = 0 then 0
       else (s.hits : ℚ) / ((s.hits + s.misses : Nat) : ℚ)) ∧
    (s.get_statistics).miss_rate =
      (if s.hits + s.misses = 0 then 0
       else (s.misses : ℚ) / ((s.hits + s.misses : Nat) : ℚ)) ∧
    (s.get_statistics).total_time = s.hits * 1 + s.misses * 101 ∧
    (s.get_statistics).avg_time =
      (if s.hits + s.misses = 0 then 0
       else ((s.hits * 1 + s.misses * 101 : Nat) : ℚ) / ((s.hits + s.misses : Nat) : ℚ)) ∧
    (s.hits = 3 → s.misses = 2 →
      (s.get_statistics).total_time = 205 ∧ (s.get_statistics).avg_time = 41) := by
  refine ⟨rfl, rfl, rfl, ?_, ?_, rfl, ?_, ?_⟩
  · show (if 0 < s.hits + s.misses
        then (s.hits : ℚ) / ((s.hits + s.misses : Nat) : ℚ) else 0) = _
    rcases Nat.eq_zero_or_pos (s.hits + s.misses) with h0 | hpos
    · rw [if_neg (by omega), if_pos h0]
    · rw [if_pos hpos, if_neg (by omega)]
  · show (if 0 < s.hits + s.misses
        then (s.misses : ℚ) / ((s.hits + s.misses : Nat) : ℚ) else 0) = _
    rcases Nat.eq_zero_or_pos (s.hits + s.misses) with h0 | hpos
    · rw [if_neg (by omega), if_pos h0]
    · rw [if_pos hpos, if_neg (by omega)]
  · show (if 0 < s.hits + s.misses
        then ((s.hits * 1 + s.misses * 101 : Nat) : ℚ) / ((s.hits + s.misses : Nat) : ℚ)
        else 0) = _
    rcases Nat.eq_zero_or_pos (s.hits + s.misses) with h0 | hpos
    · rw [if_neg (by omega), if_pos h0]
    · rw [if_pos hpos, if_neg (by omega)]
  · intro h3 h2
    constructor
    · show s.hits * 1 + s.misses * 101 = 205
      rw [h3, h2]
    · show (if 0 < s.hits + s.misses
          then ((s.hits * 1 + s.misses * 101 : Nat) : ℚ) / ((s.hits + s.misses : Nat) : ℚ)
          else 0) = 41
      rw [h3, h2]
      norm_num

/-- Witness for C5: the run 0,1,0,1,0 produces 3 hits and 2 misses, and
the statistics then report 205 time units and an average of exactly 41. -/
theorem C5_witness :
    (runSeq 1024 [0, 1, 0, 1, 0]).hits = 3 ∧
    (runSeq 1024 [0, 1, 0, 1, 0]).misses = 2 ∧
    ((runSeq 1024 [0, 1, 0, 1, 0]).get_statistics).total_time = 205 ∧
    ((runSeq 1024 [0, 1, 0, 1, 0]).get_statistics).avg_time = 41 := by
  have h := (C5_statistics (runSeq 1024 [0, 1, 0, 1, 0])).2.2.2.2.2.2.2
    (by decide) (by decide)
  exact ⟨by decide, by decide, h.1, h.2⟩

set_option maxHeartbeats 4000000 in
/-- Claim C6: replaying 0, 4, ..., 32 on a fresh engine with any
totalAddressSpace of at least 1024: all nine addresses map to set 0, the
first eight are misses that load their blocks at clocks 1..8, and the
ninth is a miss that replaces block 28 — the line with greatest
lastTouched, loaded at clock 8 — by block 32; exactly one
replaced-28-with-32 entry appears in the trace. -/
theorem C6_forced_eviction (tmb : Int) (h : 1024 ≤ tmb) :
    (runSeq tmb evictionAddrs).hits = 0 ∧
    (runSeq tmb evictionAddrs).misses = 9 ∧
    (runSeq tmb evictionAddrs).log =
      [LogEntry.miss 0 0, LogEntry.loaded 0 0, LogEntry.miss 4 0, LogEntry.loaded 4 0,
       LogEntry.miss 8 0, LogEntry.loaded 8 0, LogEntry.miss 12 0, LogEntry.loaded 12 0,
       LogEntry.miss 16 0, LogEntry.loaded 16 0, LogEntry.miss 20 0, LogEntry.loaded 20 0,
       LogEntry.miss 24 0, LogEntry.loaded 24 0, LogEntry.miss 28 0, LogEntry.loaded 28 0,
       LogEntry.miss 32 0, LogEntry.replaced 28 32 0] ∧
    (runSeq tmb evictionAddrs).log.count (LogEntry.replaced 28 32 0) = 1 ∧
    (runSeq tmb evictionAddrs).cache =
      [[⟨0, 1⟩, ⟨4, 2⟩, ⟨8, 3⟩, ⟨12, 4⟩, ⟨16, 5⟩, ⟨20, 6⟩, ⟨24, 7⟩, ⟨32, 9⟩],
       [], [], []] := by
  have he : runSeq tmb evictionAddrs =
      evictionAddrs.foldl vstep (CacheSimulator.init tmb) := by
    apply runSeq_valid_foldl
    intro a ha
    have h9 : a = 0 ∨ a = 4 ∨ a = 8 ∨ a = 12 ∨ a = 16 ∨ a = 20 ∨ a = 24 ∨
        a = 28 ∨ a = 32 := by
      simpa [evictionAddrs] using ha
    rcases h9 with rfl | rfl | rfl | rfl | rfl | rfl | rfl | rfl | rfl <;> omega
  rw [he]
  simp only [evictionAddrs, List.foldl_cons, List.foldl_nil]
  have h1 : vstep (CacheSimulator.init tmb) 0 =
      { total_memory_blocks := tmb,
        cache := [[⟨0, 1⟩], [], [], []],
        time_counter := 1, hits := 0, misses := 1,
        log := [LogEntry.miss 0 0, LogEntry.loaded 0 0] } := rfl
  have h2 : vstep
      { total_memory_blocks := tmb,
        cache := [[⟨0, 1⟩], [], [], []],
        time_counter := 1, hits := 0, misses := 1,
        log := [LogEntry.miss 0 0, LogEntry.loaded 0 0] }
      4 =
      { total_memory_blocks := tmb,
        cache := [[⟨0, 1⟩, ⟨4, 2⟩], [], [], []],
        time_counter := 2, hits := 0, misses := 2,
        log := [LogEntry.miss 0 0, LogEntry.loaded 0 0, LogEntry.miss 4 0, LogEntry.loaded 4 0] } := rfl
  have h3 : vstep
      { total_memory_blocks := tmb,
        cache := [[⟨0, 1⟩, ⟨4, 2⟩], [], [], []],
        time_counter := 2, hits := 0, misses := 2,
        log := [LogEntry.miss 0 0, LogEntry.loaded 0 0, LogEntry.miss 4 0, LogEntry.loaded 4 0] }
      8 =
      { total_memory_blocks := tmb,
        cache := [[⟨0, 1⟩, ⟨4, 2⟩, ⟨8, 3⟩], [], [], []],
        time_counter := 3, hits := 0, misses := 3,
        log := [LogEntry.miss 0 0, LogEntry.loaded 0 0, LogEntry.miss 4 0, LogEntry.loaded 4 0, LogEntry.miss 8 0, LogEntry.loaded 8 0] } := rfl
  have h4 : vstep
      { total_memory_blocks := tmb,
        cache := [[⟨0, 1⟩, ⟨4, 2⟩, ⟨8, 3⟩], [], [], []],
        time_counter := 3, hits := 0, misses := 3,
        log := [LogEntry.miss 0 0, LogEntry.loaded 0 0, LogEntry.miss 4 0, LogEntry.loaded 4 0, LogEntry.miss 8 0, LogEntry.loaded 8 0] }
      12 =
      { total_memory_blocks := tmb,
        cache := [[⟨0, 1⟩, ⟨4, 2⟩, ⟨8, 3⟩, ⟨12, 4⟩], [], [], []],
        time_counter := 4, hits := 0, misses := 4,
        log := [LogEntry.miss 0 0, LogEntry.loaded 0 0, LogEntry.miss 4 0, LogEntry.loaded 4 0, LogEntry.miss 8 0, LogEntry.loaded 8 0, LogEntry.miss 12 0, LogEntry.loaded 12 0] } := rfl
  have h5 : vstep
      { total_memory_blocks := tmb,
        cache := [[⟨0, 1⟩, ⟨4, 2⟩, ⟨8, 3⟩, ⟨12, 4⟩], [], [], []],
        time_counter := 4, hits := 0, misses := 4,
        log := [LogEntry.miss 0 0, LogEntry.loaded 0 0, LogEntry.miss 4 0, LogEntry.loaded 4 0, LogEntry.miss 8 0, LogEntry.loaded 8 0, LogEntry.miss 12 0, LogEntry.loaded 12 0] }
      16 =
      { total_memory_blocks := tmb,
        cache := [[⟨0, 1⟩, ⟨4, 2⟩, ⟨8, 3⟩, ⟨12, 4⟩, ⟨16, 5⟩], [], [], []],
        time_counter := 5, hits := 0, misses := 5,
        log := [LogEntry.miss 0 0, LogEntry.loaded 0 0, LogEntry.miss 4 0, LogEntry.loaded 4 0, LogEntry.miss 8 0, LogEntry.loaded 8 0, LogEntry.miss 12 0, LogEntry.loaded 12 0, LogEntry.miss 16 0, LogEntry.loaded 16 0] } := rfl
  have h6 : vstep
      { total_memory_blocks := tmb,
        cache := [[⟨0, 1⟩, ⟨4, 2⟩, ⟨8, 3⟩, ⟨12, 4⟩, ⟨16, 5⟩], [], [], []],
        time_counter := 5, hits := 0, misses := 5,
        log := [LogEntry.miss 0 0, LogEntry.loaded 0 0, LogEntry.miss 4 0, LogEntry.loaded 4 0, LogEntry.miss 8 0, LogEntry.loaded 8 0, LogEntry.miss 12 0, LogEntry.loaded 12 0, LogEntry.miss 16 0, LogEntry.loaded 16 0] }
      20 =
      { total_memory_blocks := tmb,
        cache := [[⟨0, 1⟩, ⟨4, 2⟩, ⟨8, 3⟩, ⟨12, 4⟩, ⟨16, 5⟩, ⟨20, 6⟩], [], [], []],
        time_counter := 6, hits := 0, misses := 6,
        log := [LogEntry.miss 0 0, LogEntry.loaded 0 0, LogEntry.miss 4 0, LogEntry.loaded 4 0, LogEntry.miss 8 0, LogEntry.loaded 8 0, LogEntry.miss 12 0, LogEntry.loaded 12 0, LogEntry.miss 16 0, LogEntry.loaded 16 0, LogEntry.miss 20 0, LogEntry.loaded 20 0] } := rfl
  have h7 : vstep
      { total_memory_blocks := tmb,
        cache := [[⟨0, 1⟩, ⟨4, 2⟩, ⟨8, 3⟩, ⟨12, 4⟩, ⟨16, 5⟩, ⟨20, 6⟩], [], [], []],
        time_counter := 6, hits := 0, misses := 6,
        log := [LogEntry.miss 0 0, LogEntry.loaded 0 0, LogEntry.miss 4 0, LogEntry.loaded 4 0, LogEntry.miss 8 0, LogEntry.loaded 8 0, LogEntry.miss 12 0, LogEntry.loaded 12 0, LogEntry.miss 16 0, LogEntry.loaded 16 0, LogEntry.miss 20 0, LogEntry.loaded 20 0] }
      24 =
      { total_memory_blocks := tmb,
        cache := [[⟨0, 1⟩, ⟨4, 2⟩, ⟨8, 3⟩, ⟨12, 4⟩, ⟨16, 5⟩, ⟨20, 6⟩, ⟨24, 7⟩], [], [], []],
        time_counter := 7, hits := 0, misses := 7,
        log := [LogEntry.miss 0 0, LogEntry.loaded 0 0, LogEntry.miss 4 0, LogEntry.loaded 4 0, LogEntry.miss 8 0, LogEntry.loaded 8 0, LogEntry.miss 12 0, LogEntry.loaded 12 0, LogEntry.miss 16 0, LogEntry.loaded 16 0, LogEntry.miss 20 0, LogEntry.loaded 20 0, LogEntry.miss 24 0, LogEntry.loaded 24 0] } := rfl
  have h8 : vstep
      { total_memory_blocks := tmb,
        cache := [[⟨0, 1⟩, ⟨4, 2⟩, ⟨8, 3⟩, ⟨12, 4⟩, ⟨16, 5⟩, ⟨20, 6⟩, ⟨24, 7⟩], [], [], []],
        time_counter := 7, hits := 0, misses := 7,
        log := [LogEntry.miss 0 0, LogEntry.loaded 0 0, LogEntry.miss 4 0, LogEntry.loaded 4 0, LogEntry.miss 8 0, LogEntry.loaded 8 0, LogEntry.miss 12 0, LogEntry.loaded 12 0, LogEntry.miss 16 0, LogEntry.loaded 16 0, LogEntry.miss 20 0, LogEntry.loaded 20 0, LogEntry.miss 24 0, LogEntry.loaded 24 0] }
      28 =
      { total_memory_blocks := tmb,
        cache := [[⟨0, 1⟩, ⟨4, 2⟩, ⟨8, 3⟩, ⟨12, 4⟩, ⟨16, 5⟩, ⟨20, 6⟩, ⟨24, 7⟩, ⟨28, 8⟩], [], [], []],
        time_counter := 8, hits := 0, misses := 8,
        log := [LogEntry.miss 0 0, LogEntry.loaded 0 0, LogEntry.miss 4 0, LogEntry.loaded 4 0, LogEntry.miss 8 0, LogEntry.loaded 8 0, LogEntry.miss 12 0, LogEntry.loaded 12 0, LogEntry.miss 16 0, LogEntry.loaded 16 0, LogEntry.miss 20 0, LogEntry.loaded 20 0, LogEntry.miss 24 0, LogEntry.loaded 24 0, LogEntry.miss 28 0, LogEntry.loaded 28 0] } := rfl
  have h9 : vstep
      { total_memory_blocks := tmb,
        cache := [[⟨0, 1⟩, ⟨4, 2⟩, ⟨8, 3⟩, ⟨12, 4⟩, ⟨16, 5⟩, ⟨20, 6⟩, ⟨24, 7⟩, ⟨28, 8⟩], [], [], []],
        time_counter := 8, hits := 0, misses := 8,
        log := [LogEntry.miss 0 0, LogEntry.loaded 0 0, LogEntry.miss 4 0, LogEntry.loaded 4 0, LogEntry.miss 8 0, LogEntry.loaded 8 0, LogEntry.miss 12 0, LogEntry.loaded 12 0, LogEntry.miss 16 0, LogEntry.loaded 16 0, LogEntry.miss 20 0, LogEntry.loaded 20 0, LogEntry.miss 24 0, LogEntry.loaded 24 0, LogEntry.miss 28 0, LogEntry.loaded 28 0] }
      32 =
      { total_memory_blocks := tmb,
        cache := [[⟨0, 1⟩, ⟨4, 2⟩, ⟨8, 3⟩, ⟨12, 4⟩, ⟨16, 5⟩, ⟨20, 6⟩, ⟨24, 7⟩, ⟨32, 9⟩], [], [], []],
        time_counter := 9, hits := 0, misses := 9,
        log := [LogEntry.miss 0 0, LogEntry.loaded 0 0, LogEntry.miss 4 0, LogEntry.loaded 4 0, LogEntry.miss 8 0, LogEntry.loaded 8 0, LogEntry.miss 12 0, LogEntry.loaded 12 0, LogEntry.miss 16 0, LogEntry.loaded 16 0, LogEntry.miss 20 0, LogEntry.loaded 20 0, LogEntry.miss 24 0, LogEntry.loaded 24 0, LogEntry.miss 28 0, LogEntry.loaded 28 0, LogEntry.miss 32 0, LogEntry.replaced 28 32 0] } := rfl
  rw [h1, h2, h3, h4, h5, h6, h7, h8, h9]
  exact ⟨rfl, rfl, rfl, rfl, rfl⟩

/-- Witness for C6 at totalAddressSpace exactly 1024. -/
theorem C6_witness :
    (1024 : Int) ≤ 1024 ∧
    (runSeq 1024 evictionAddrs).log.count (LogEntry.replaced 28 32 0) = 1 ∧
    (runSeq 1024 evictionAddrs).misses = 9 :=
  ⟨by decide, (C6_forced_eviction 1024 (by decide)).2.2.2.1,
    (C6_forced_eviction 1024 (by decide)).2.1⟩

/-- Claim C8: every access — valid or invalid — increments the logical
clock by exactly one, so the clock is strictly increasing across calls;
in every reachable state the timestamps of all resident lines are
pairwise distinct across the whole cache and each is at most the current
clock, so the eviction scan can never meet two lines sharing the maximal
lastTouched value. -/
theorem C8_clock_monotonicity (tmb : Int) (seq : List Int) :
    (∀ (s : CacheSimulator) (a : Int),
      (s.access a).time_counter = s.time_counter + 1) ∧
    List.Pairwise (fun e f : Line => e.timestamp ≠ f.timestamp)
      (runSeq tmb seq).cache.flatten ∧
    (∀ e ∈ (runSeq tmb seq).cache.flatten,
      e.timestamp ≤ (runSeq tmb seq).time_counter) := by
  have h := WF_runSeq tmb seq
  refine ⟨access_tc, ?_, ?_⟩
  · have h2 : List.Pairwise (fun x y : Int => x ≠ y)
        ((runSeq tmb seq).cache.flatten.map Line.timestamp) := h.2.2.2.1
    exact List.pairwise_map.mp h2
  · intro e he
    rcases List.mem_flatten.mp he with ⟨cset, hc, he2⟩
    exact (h.2.2.2.2 cset hc e he2).2

/-- Claim C9: for every positive n, the sequential generator returns
exactly the ascending run 0..2n-1 (the i-th element is i) repeated four
times consecutively, and the mid-repeat generator returns exactly the
concatenation 0..n-1, 1..n-1, n..2n-1 repeated four times. -/
theorem C9_generators (n : Int) (h : 0 < n) :
    generate_sequential_sequence n = specSequential n ∧
    generate_midrepeat_sequence n = specMidRepeat n ∧
    (pyRange 0 (2 * n)).length = (2 * n).toNat ∧
    (∀ i : Nat, i < (2 * n).toNat → (pyRange 0 (2 * n)).getD i 0 = i) := by
  refine ⟨?_, ?_, ?_, ?_⟩
  · show (List.replicate 4 (pyRange 0 (2 * n))).flatten = _
    have h4 : List.replicate 4 (pyRange 0 (2 * n)) =
        [pyRange 0 (2 * n), pyRange 0 (2 * n), pyRange 0 (2 * n), pyRange 0 (2 * n)] := rfl
    rw [h4]
    simp [specSequential]
  · show (List.replicate 4 (pyRange 0 n ++ pyRange 1 n ++ pyRange n (2 * n))).flatten = _
    have h4 : List.replicate 4 (pyRange 0 n ++ pyRange 1 n ++ pyRange n (2 * n)) =
        [pyRange 0 n ++ pyRange 1 n ++ pyRange n (2 * n),
         pyRange 0 n ++ pyRange 1 n ++ pyRange n (2 * n),
         pyRange 0 n ++ pyRange 1 n ++ pyRange n (2 * n),
         pyRange 0 n ++ pyRange 1 n ++ pyRange n (2 * n)] := rfl
    rw [h4]
    simp [specMidRepeat]
  · unfold pyRange
    rw [List.length_map, List.length_range]
    norm_num
  · intro i hi
    unfold pyRange
    have hl : ((List.range ((2 * n : Int) - 0).toNat).map
        (fun j : Nat => (0 : Int) + j)).length = (2 * n).toNat := by
      rw [List.length_map, List.length_range]
      norm_num
    rw [List.getD_eq_getElem _ 0 (by rw [hl]; exact hi)]
    simp

/-- Witness for C9 at n = 3. -/
theorem C9_witness :
    (0 : Int) < 3 ∧
    generate_sequential_sequence 3 = specSequential 3 ∧
    generate_midrepeat_sequence 3 = specMidRepeat 3 ∧
    (pyRange 0 (2 * 3)).length = ((2 * 3 : Int)).toNat ∧
    (∀ i : Nat, i < ((2 * 3 : Int)).toNat → (pyRange 0 (2 * 3)).getD i 0 = i) := by
  have h := C9_generators 3 (by decide)
  exact ⟨by decide, h.1, h.2.1, h.2.2.1, h.2.2.2⟩

/-- Witness for C3: after the run 0, 4, 8 the first set holds three
lines with pairwise distinct blocks. -/
theorem C3_witness :
    ([⟨0, 1⟩, ⟨4, 2⟩, ⟨8, 3⟩] : List Line) ∈ (runSeq 1024 [0, 4, 8]).cache ∧
    (([⟨0, 1⟩, ⟨4, 2⟩, ⟨8, 3⟩] : List Line).length ≤ associativity ∧
      List.Pairwise (fun e f : Line => e.block ≠ f.block)
        ([⟨0, 1⟩, ⟨4, 2⟩, ⟨8, 3⟩] : List Line)) :=
  ⟨by decide, C3_capacity_uniqueness 1024 [0, 4, 8] _ (by decide)⟩

/-- Witness for C8: a concrete clock increment and a concrete resident
line whose timestamp is bounded by the clock. -/
theorem C8_witness :
    ((CacheSimulator.init 1024).access 5).time_counter =
      (CacheSimulator.init 1024).time_counter + 1 ∧
    ((⟨0, 1⟩ : Line) ∈ (runSeq 1024 [0, 1]).cache.flatten ∧
      (⟨0, 1⟩ : Line).timestamp ≤ (runSeq 1024 [0, 1]).time_counter) :=
  ⟨(C8_clock_monotonicity 1024 [0, 1]).1 (CacheSimulator.init 1024) 5,
   ⟨by decide, (C8_clock_monotonicity 1024 [0, 1]).2.2 ⟨0, 1⟩ (by decide)⟩⟩
